import Mathlib

/-!
Shallow embedding of the scale-generator core (src/app.js): note parsing,
tuning resolution and scale/fretboard generation, together with theorems
checking the specification's claims against these definitions.

JS strings are modelled as Lean `String` / `List Char`; JS `undefined`
arguments as `Option String` with `none`; JS `null` results as `Option`
with `none`; the JS number type as `Int` (all arithmetic here is integer
arithmetic); the JS remainder operator `%` as `Int.tmod` (both truncate
towards zero).  `String.toUpperCase` / `toLowerCase` are modelled on the
ASCII range (the only range exercised by the note alphabet), and the JS
whitespace class `\s` by `Char.isWhitespace`.
-/

namespace ScaleGen

/-- JS `String.prototype.trim`: drop whitespace from both ends
(char-list form). -/
def trimChars (cs : List Char) : List Char :=
  ((cs.dropWhile Char.isWhitespace).reverse.dropWhile Char.isWhitespace).reverse

/-- `replace(/♭/g, 'b')` — a single-character global replace is a map. -/
def replFlat (c : Char) : Char := if c = '♭' then 'b' else c

/-- `replace(/♯/g, '#')`. -/
def replSharp (c : Char) : Char := if c = '♯' then '#' else c

/-- Normalisation done by `parseNoteToSemitone`:
`n.replace(/♭/g,'b').replace(/♯/g,'#').toUpperCase()`. -/
def normNote (cs : List Char) : List Char :=
  ((cs.map replFlat).map replSharp).map Char.toUpper

/-- The object `baseSemitoneMap` of src/app.js: basic letters to semitones
(`hasOwnProperty` failure modelled as `none`). -/
def baseSemitoneMap (c : Char) : Option Int :=
  if c = 'C' then some 0
  else if c = 'D' then some 2
  else if c = 'E' then some 4
  else if c = 'F' then some 5
  else if c = 'G' then some 7
  else if c = 'A' then some 9
  else if c = 'B' then some 11
  else none

/-- The accidental loop of `parseNoteToSemitone`: `+1` per `'#'`, `-1` per
`'B'` (post-normalisation), any other character invalidates the note. -/
def applyAccidentals : Int → List Char → Option Int
  | semitone, [] => some semitone
  | semitone, ch :: rest =>
    if ch = '#' then applyAccidentals (semitone + 1) rest
    else if ch = 'B' then applyAccidentals (semitone - 1) rest
    else none

/-- `((semitone % 12) + 12) % 12` with the JS truncating `%`. -/
def jsMod12 (x : Int) : Int := ((x.tmod 12) + 12).tmod 12

/-- `parseNoteToSemitone` of src/app.js on a string argument.  The JS guard
`if (!note) return null` is the emptiness test for a string argument. -/
def parseNoteToSemitone (note : String) : Option Int :=
  if note = "" then none
  else
    let n := trimChars note.data
    if n.length = 0 then none
    else
      match normNote n with
      | [] => none
      | base :: rest =>
        match baseSemitoneMap base with
        | none => none
        | some s =>
          match applyAccidentals s rest with
          | none => none
          | some semitone => some (jsMod12 semitone)

/-- `parseNoteToSemitone` on a possibly-`undefined` argument (as produced by
an out-of-range JS array index): `!undefined` is true, so the result is
`null`. -/
def parseNoteToSemitoneU : Option String → Option Int
  | none => none
  | some s => parseNoteToSemitone s

/-- The display list `noteNamesSharp` of src/app.js (one name per line,
as in the source). -/
def noteNamesSharp : List String :=
  "C" :: "C#" :: "D" :: "D#" :: "E" :: "F" ::
    "F#" :: "G" :: "G#" :: "A" :: "A#" :: "B" :: []

/-- The object `naturalMinorScales` of src/app.js, keyed by root semitone. -/
def naturalMinorScales (r : Int) : Option (List String) :=
  if r = 0 then some ["C", "D", "Eb", "F", "G", "Ab", "Bb"]
  else if r = 1 then some ["C#", "D#", "E", "F#", "G#", "A", "B"]
  else if r = 2 then some ["D", "E", "F", "G", "A", "Bb", "C"]
  else if r = 3 then some ["Eb", "F", "Gb", "Ab", "Bb", "Cb", "Db"]
  else if r = 4 then some ["E", "F#", "G", "A", "B", "C", "D"]
  else if r = 5 then some ["F", "G", "Ab", "Bb", "C", "Db", "Eb"]
  else if r = 6 then some ["F#", "G#", "A", "B", "C#", "D", "E"]
  else if r = 7 then some ["G", "A", "Bb", "C", "D", "Eb", "F"]
  else if r = 8 then some ["Ab", "Bb", "Cb", "Db", "Eb", "Fb", "Gb"]
  else if r = 9 then some ["A", "B", "C", "D", "E", "F", "G"]
  else if r = 10 then some ["Bb", "C", "Db", "Eb", "F", "Gb", "Ab"]
  else if r = 11 then some ["B", "C#", "D", "E", "F#", "G", "A"]
  else none

/-- The object `harmonicMinorScales` of src/app.js, keyed by root semitone. -/
def harmonicMinorScales (r : Int) : Option (List String) :=
  if r = 0 then some ["C", "D", "Eb", "F", "G", "Ab", "B"]
  else if r = 1 then some ["C#", "D#", "E", "F#", "G#", "A", "B#"]
  else if r = 2 then some ["D", "E", "F", "G", "A", "Bb", "C#"]
  else if r = 3 then some ["Eb", "F", "Gb", "Ab", "Bb", "Cb", "D"]
  else if r = 4 then some ["E", "F#", "G", "A", "B", "C", "D#"]
  else if r = 5 then some ["F", "G", "Ab", "Bb", "C", "Db", "E"]
  else if r = 6 then some ["F#", "G#", "A", "B", "C#", "D", "E#"]
  else if r = 7 then some ["G", "A", "Bb", "C", "D", "Eb", "F#"]
  else if r = 8 then some ["Ab", "Bb", "Cb", "Db", "Eb", "Fb", "G"]
  else if r = 9 then some ["A", "B", "C", "D", "E", "F", "G#"]
  else if r = 10 then some ["Bb", "C", "Db", "Eb", "F", "Gb", "A"]
  else if r = 11 then some ["B", "C#", "D", "E", "F#", "G", "A#"]
  else none

/-- The object `standardTunings` of src/app.js (4 to 8 strings, low→high). -/
def standardTunings (n : Nat) : Option (List String) :=
  if n = 4 then some ["E", "A", "D", "G"]
  else if n = 5 then some ["B", "E", "A", "D", "G"]
  else if n = 6 then some ["E", "A", "D", "G", "B", "E"]
  else if n = 7 then some ["B", "E", "A", "D", "G", "B", "E"]
  else if n = 8 then some ["F#", "B", "E", "A", "D", "G", "B", "E"]
  else none

/-- The regex test `/^drop\s+/i.test(trimmed)`: four letters d,r,o,p in
either case followed by one whitespace character. -/
def isDropForm : List Char → Bool
  | c1 :: c2 :: c3 :: c4 :: c5 :: _ =>
    (c1 = 'd' || c1 = 'D') && (c2 = 'r' || c2 = 'R') && (c3 = 'o' || c3 = 'O') &&
      (c4 = 'p' || c4 = 'P') && c5.isWhitespace
  | _ => false

/-- Accumulator worker for `split(/\s+/)`: collects maximal runs of
non-whitespace characters. -/
def splitWsAux : List Char → List Char → List (List Char)
  | [], acc => if acc = [] then [] else [acc.reverse]
  | c :: cs, acc =>
    if c.isWhitespace then
      if acc = [] then splitWsAux cs []
      else acc.reverse :: splitWsAux cs []
    else splitWsAux cs (c :: acc)

/-- JS `trimmed.split(/\s+/)`.  On a string with no leading whitespace (the
only way it is called in src/app.js — the argument is always trimmed) the JS
split produces exactly the maximal non-whitespace runs; a leading run of
whitespace would additionally produce a leading empty string, which the only
consumer that could see it removes with `.filter(Boolean)`. -/
def splitWsRuns (cs : List Char) : List (List Char) := splitWsAux cs []

/-- Token normalisation used by `parseTuning` in both branches:
`.toUpperCase().replace(/♭/g,'b').replace(/♯/g,'#')`. -/
def normTokenChars (cs : List Char) : List Char :=
  ((cs.map Char.toUpper).map replFlat).map replSharp

/-- `parseTuning` of src/app.js.  The argument is `Option String` so that a
missing (`undefined`) argument is representable; `!input` is true for both
`undefined` and the empty string. -/
def parseTuning (input : Option String) (numStrings : Nat) : Option (List String) :=
  match input with
  | none => none
  | some input =>
    if input = "" then none
    else
      let trimmed := trimChars input.data
      if isDropForm trimmed then
        let parts := splitWsRuns trimmed
        if parts.length < 2 then none
        else
          let dropNote := String.mk (normTokenChars (parts.getD 1 []))
          match standardTunings numStrings with
          | none => none
          | some baseTuning => some (baseTuning.set 0 dropNote)
      else
        let tokens := (splitWsRuns trimmed).filter (fun t => t ≠ [])
        if tokens.length = numStrings then
          some (tokens.map (fun t => String.mk (normTokenChars t)))
        else none

/-- Result of `generateScaleDiagram`: either `{ error: msg }` or the object
`{ scale, fretboard, rootSemitone, scaleSemitones }`. -/
inductive DiagramResult where
  | error (msg : String)
  | ok (scale : List String) (fretboard : List (List (String × Bool)))
      (rootSemitone : Int) (scaleSemitones : List (Option Int))
deriving DecidableEq

/-- String interpolation of a possibly-`undefined` value:
`` `...: ${openNote}` `` prints `undefined` for a missing entry. -/
def jsDisplay : Option String → String
  | none => "undefined"
  | some s => s

/-- The inner fret loop of `generateScaleDiagram`: frets 1..12, displayed
name from `noteNamesSharp`, in-scale flag via `includes`. -/
def buildRow (openSemitone : Int) (scaleSemitones : List (Option Int)) :
    List (String × Bool) :=
  (List.range 12).map fun (i : Nat) =>
    let fret : Int := (i : Int) + 1
    let noteSemitone := (openSemitone + fret).tmod 12
    (noteNamesSharp.getD noteSemitone.toNat "", scaleSemitones.contains (some noteSemitone))

/-- The outer string loop of `generateScaleDiagram`, processing string
indices `start, start+1, …, start+count-1`; the first unparsable open note
aborts with the error of src/app.js line 194. -/
def buildStrings (tuningArray : List String) (scaleSemitones : List (Option Int)) :
    Nat → Nat → Except String (List (List (String × Bool)))
  | _, 0 => .ok []
  | start, count + 1 =>
    match parseNoteToSemitoneU (tuningArray[start]?) with
    | none => .error ("Nota de afinação inválida: " ++ jsDisplay (tuningArray[start]?))
    | some openSemitone =>
      match buildStrings tuningArray scaleSemitones (start + 1) count with
      | .error e => .error e
      | .ok rest => .ok (buildRow openSemitone scaleSemitones :: rest)

/-- The fretboard phase of `generateScaleDiagram` shared by both scale
types: the `!scaleNotes` check and the string loop. -/
def generateWithScale (numStrings : Nat) (tuningArray : List String)
    (rootSemitone : Int) (scaleNotes? : Option (List String)) : DiagramResult :=
  match scaleNotes? with
  | none => .error "Escala não encontrada."
  | some scaleNotes =>
    let scaleSemitones := scaleNotes.map parseNoteToSemitone
    match buildStrings tuningArray scaleSemitones 0 numStrings with
    | .error e => .error e
    | .ok fretboard => .ok scaleNotes fretboard rootSemitone scaleSemitones

/-- `generateScaleDiagram` of src/app.js. -/
def generateScaleDiagram (numStrings : Nat) (tuningArray : List String)
    (rootNote : String) (scaleType : String) : DiagramResult :=
  match parseNoteToSemitone rootNote with
  | none => .error "Tonalidade inválida."
  | some rootSemitone =>
    if scaleType = "natural" then
      generateWithScale numStrings tuningArray rootSemitone (naturalMinorScales rootSemitone)
    else if scaleType = "harmonic" then
      generateWithScale numStrings tuningArray rootSemitone (harmonicMinorScales rootSemitone)
    else .error "Tipo de escala inválido."

/-- Scale list of a successful result. -/
def DiagramResult.getScale : DiagramResult → Option (List String)
  | .ok s _ _ _ => some s
  | _ => none

/-- Fretboard of a successful result. -/
def DiagramResult.getFretboard : DiagramResult → Option (List (List (String × Bool)))
  | .ok _ f _ _ => some f
  | _ => none

/-- Root semitone of a successful result. -/
def DiagramResult.getRoot : DiagramResult → Option Int
  | .ok _ _ r _ => some r
  | _ => none

/-! ### Helper lemmas -/

/-- The JS idiom `((x % 12) + 12) % 12` (truncating `%`) is floored
reduction modulo 12. -/
theorem jsMod12_eq_emod (x : Int) : jsMod12 x = x % 12 := by
  unfold jsMod12
  rcases x with m | m
  · rw [show (Int.ofNat m) = (m : Int) from rfl]
    have h1 : (m : Int).tmod 12 = (m : Int) % 12 :=
      Int.tmod_eq_emod (by positivity) (by norm_num)
    have h0 : (0:Int) ≤ (m : Int) % 12 + 12 := by omega
    rw [h1, Int.tmod_eq_emod h0 (by norm_num)]
    omega
  · have h : Int.tmod (Int.negSucc m) (12:Int) = -(((m+1) % 12 : Nat) : Int) := rfl
    have h0 : (0:Int) ≤ -(((m+1) % 12 : Nat) : Int) + 12 := by omega
    rw [h, Int.tmod_eq_emod h0 (by norm_num), Int.negSucc_eq]
    omega

theorem applyAccidentals_count {rest : List Char}
    (h : ∀ c ∈ rest, c = '#' ∨ c = 'B') (s : Int) :
    applyAccidentals s rest = some (s + rest.count '#' - rest.count 'B') := by
  induction rest generalizing s with
  | nil => simp [applyAccidentals]
  | cons c cs ih =>
    rcases h c (by simp) with hc | hc <;> subst hc
    · rw [applyAccidentals, if_pos rfl, ih (fun c hc => h c (by simp [hc]))]
      simp [List.count_cons]
      ring
    · rw [applyAccidentals, if_neg (by decide), if_pos rfl,
        ih (fun c hc => h c (by simp [hc]))]
      simp [List.count_cons]
      ring

theorem applyAccidentals_none_iff (rest : List Char) (s : Int) :
    applyAccidentals s rest = none ↔ ∃ c ∈ rest, c ≠ '#' ∧ c ≠ 'B' := by
  induction rest generalizing s with
  | nil => simp [applyAccidentals]
  | cons c cs ih =>
    by_cases h1 : c = '#'
    · subst h1
      rw [applyAccidentals, if_pos rfl, ih]
      simp
    · by_cases h2 : c = 'B'
      · subst h2
        rw [applyAccidentals, if_neg (by decide), if_pos rfl, ih]
        simp
      · rw [applyAccidentals, if_neg h1, if_neg h2]
        simp [h1, h2]

theorem baseSemitoneMap_none_iff (c : Char) :
    baseSemitoneMap c = none ↔ c ∉ (['A', 'B', 'C', 'D', 'E', 'F', 'G'] : List Char) := by
  unfold baseSemitoneMap
  split_ifs <;> simp_all

theorem normNote_eq_nil_iff (l : List Char) : normNote l = [] ↔ l = [] := by
  unfold normNote
  simp

/-- Any defined result of `parseNoteToSemitone` lies in `[0, 12)`. -/
theorem parseNoteToSemitone_bounds {s : String} {x : Int}
    (h : parseNoteToSemitone s = some x) : 0 ≤ x ∧ x < 12 := by
  unfold parseNoteToSemitone at h
  dsimp only at h
  split at h
  · simp at h
  · split at h
    · simp at h
    · split at h
      · simp at h
      · split at h
        · simp at h
        · split at h
          · simp at h
          · rw [Option.some_inj] at h
            rw [← h, jsMod12_eq_emod]
            constructor
            · exact Int.emod_nonneg _ (by norm_num)
            · exact Int.emod_lt_of_pos _ (by norm_num)

theorem buildRow_length (o : Int) (ss : List (Option Int)) :
    (buildRow o ss).length = 12 := by
  simp [buildRow]

theorem buildRow_getElem? {i : Nat} (hi : i < 12) (o : Int) (ss : List (Option Int)) :
    (buildRow o ss)[i]? =
      some (noteNamesSharp.getD ((o + ((i : Int) + 1)).tmod 12).toNat "",
        ss.contains (some ((o + ((i : Int) + 1)).tmod 12))) := by
  unfold buildRow
  rw [List.getElem?_map, List.getElem?_range hi]
  rfl

theorem buildStrings_ok {t : List String} {ss : List (Option Int)} :
    ∀ {count start : Nat} {fb : List (List (String × Bool))},
      buildStrings t ss start count = .ok fb →
      fb.length = count ∧
        ∀ j, j < count → ∃ pc, parseNoteToSemitoneU (t[start + j]?) = some pc ∧
          fb[j]? = some (buildRow pc ss) := by
  intro count
  induction count with
  | zero =>
    intro start fb h
    rw [buildStrings] at h
    cases h
    exact ⟨rfl, fun j hj => absurd hj (Nat.not_lt_zero j)⟩
  | succ c ih =>
    intro start fb h
    rw [buildStrings] at h
    cases hp : parseNoteToSemitoneU (t[start]?) with
    | none => rw [hp] at h; cases h
    | some pc =>
      rw [hp] at h
      cases hrec : buildStrings t ss (start + 1) c with
      | error e => rw [hrec] at h; cases h
      | ok rest =>
        rw [hrec] at h
        cases h
        obtain ⟨hlen, hshape⟩ := ih hrec
        refine ⟨by simp [hlen], fun j hj => ?_⟩
        cases j with
        | zero => exact ⟨pc, by simpa using hp, by simp⟩
        | succ j' =>
          obtain ⟨pc', hpc', hfb'⟩ := hshape j' (by omega)
          exact ⟨pc', by rw [show start + (j' + 1) = start + 1 + j' by omega]; exact hpc',
            by simpa using hfb'⟩

theorem buildStrings_error_at {t : List String} {ss : List (Option Int)} :
    ∀ {j count start : Nat}, j < count →
      parseNoteToSemitoneU (t[start + j]?) = none →
      (∀ i, i < j → parseNoteToSemitoneU (t[start + i]?) ≠ none) →
      buildStrings t ss start count =
        .error ("Nota de afinação inválida: " ++ jsDisplay (t[start + j]?)) := by
  intro j
  induction j with
  | zero =>
    intro count start hj hfail _
    cases count with
    | zero => omega
    | succ c =>
      rw [show start + 0 = start by omega] at hfail
      rw [buildStrings, hfail]
      rfl
  | succ j' ih =>
    intro count start hj hfail hbelow
    cases count with
    | zero => omega
    | succ c =>
      cases hp : parseNoteToSemitoneU (t[start]?) with
      | none => exact absurd hp (by simpa using hbelow 0 (by omega))
      | some pc =>
        have hrec := @ih c (start + 1) (by omega)
          (by rw [show start + 1 + j' = start + (j' + 1) by omega]; exact hfail)
          (fun i hi => by
            rw [show start + 1 + i = start + (i + 1) by omega]
            exact hbelow (i + 1) (by omega))
        rw [show start + (j' + 1) = start + 1 + j' by omega]
        simp only [buildStrings, hp, hrec]

theorem buildStrings_all_ok {t : List String} {ss : List (Option Int)} :
    ∀ {count start : Nat},
      (∀ j, j < count → parseNoteToSemitoneU (t[start + j]?) ≠ none) →
      ∃ fb, buildStrings t ss start count = .ok fb ∧ fb.length = count := by
  intro count
  induction count with
  | zero => exact fun _ => ⟨[], by rw [buildStrings], rfl⟩
  | succ c ih =>
    intro start hall
    cases hp : parseNoteToSemitoneU (t[start]?) with
    | none => exact absurd hp (by simpa using hall 0 (by omega))
    | some pc =>
      obtain ⟨fb', hfb', hlen'⟩ := @ih (start + 1) (fun j hj => by
        rw [show start + 1 + j = start + (j + 1) by omega]
        exact hall (j + 1) (by omega))
      refine ⟨buildRow pc ss :: fb', ?_, by simp [hlen']⟩
      simp only [buildStrings, hp, hfb']

theorem buildStrings_congr {ss : List (Option Int)} :
    ∀ {count start : Nat} {t t' : List String},
      (∀ j, j < count → t[start + j]? = t'[start + j]?) →
      buildStrings t ss start count = buildStrings t' ss start count := by
  intro count
  induction count with
  | zero => intro start t t' _; rw [buildStrings, buildStrings]
  | succ c ih =>
    intro start t t' hagree
    have h0 : t[start]? = t'[start]? := by simpa using hagree 0 (by omega)
    have hrec := @ih (start + 1) t t' (fun j hj => by
      rw [show start + 1 + j = start + (j + 1) by omega]
      exact hagree (j + 1) (by omega))
    rw [buildStrings, buildStrings, h0]
    simp only [hrec]

/-- Inversion of a successful `generateScaleDiagram` call. -/
theorem generateScaleDiagram_ok_inv {n : Nat} {t : List String} {root ty : String}
    {scale : List String} {fb : List (List (String × Bool))} {rs : Int}
    {ss : List (Option Int)}
    (h : generateScaleDiagram n t root ty = .ok scale fb rs ss) :
    parseNoteToSemitone root = some rs ∧
      (naturalMinorScales rs = some scale ∨ harmonicMinorScales rs = some scale) ∧
      ss = scale.map parseNoteToSemitone ∧
      buildStrings t (scale.map parseNoteToSemitone) 0 n = .ok fb := by
  unfold generateScaleDiagram at h
  cases hroot : parseNoteToSemitone root with
  | none => rw [hroot] at h; cases h
  | some r =>
    rw [hroot] at h
    dsimp only at h
    by_cases hnat : ty = "natural"
    · rw [if_pos hnat] at h
      unfold generateWithScale at h
      cases htab : naturalMinorScales r with
      | none => rw [htab] at h; cases h
      | some sc =>
        rw [htab] at h
        dsimp only at h
        cases hb : buildStrings t (sc.map parseNoteToSemitone) 0 n with
        | error e => rw [hb] at h; cases h
        | ok fb' =>
          rw [hb] at h
          cases h
          exact ⟨rfl, Or.inl htab, rfl, hb⟩
    · rw [if_neg hnat] at h
      by_cases hharm : ty = "harmonic"
      · rw [if_pos hharm] at h
        unfold generateWithScale at h
        cases htab : harmonicMinorScales r with
        | none => rw [htab] at h; cases h
        | some sc =>
          rw [htab] at h
          dsimp only at h
          cases hb : buildStrings t (sc.map parseNoteToSemitone) 0 n with
          | error e => rw [hb] at h; cases h
          | ok fb' =>
            rw [hb] at h
            cases h
            exact ⟨rfl, Or.inr htab, rfl, hb⟩
      · rw [if_neg hharm] at h
        cases h

theorem head?_dropWhile_false {p : Char → Bool} {l : List Char} {c : Char}
    (h : (l.dropWhile p).head? = some c) : p c = false := by
  have hm := List.head?_dropWhile_not p l
  rw [h] at hm
  exact hm

/-- A trimmed character list never ends in whitespace. -/
theorem trimChars_getLast {l : List Char} {c : Char}
    (h : (trimChars l).getLast? = some c) : c.isWhitespace = false := by
  unfold trimChars at h
  rw [List.getLast?_reverse] at h
  exact head?_dropWhile_false h

theorem splitWsAux_ne_nil :
    ∀ {cs : List Char} {acc : List Char},
      (acc ≠ [] ∨ ∃ c ∈ cs, c.isWhitespace = false) → splitWsAux cs acc ≠ [] := by
  intro cs
  induction cs with
  | nil =>
    intro acc h
    rcases h with h | ⟨c, hc, _⟩
    · rw [splitWsAux, if_neg h]
      simp
    · simp at hc
  | cons c cs ih =>
    intro acc h
    rw [splitWsAux]
    by_cases hws : c.isWhitespace
    · rw [if_pos hws]
      by_cases hacc : acc = []
      · rw [if_pos hacc]
        apply ih
        right
        rcases h with h | ⟨d, hd, hdw⟩
        · exact absurd hacc h
        · rcases List.mem_cons.mp hd with rfl | hd'
          · rw [hws] at hdw; cases hdw
          · exact ⟨d, hd', hdw⟩
      · rw [if_neg hacc]
        simp
    · rw [if_neg hws]
      exact ih (Or.inl (by simp))

theorem splitWsRuns_cons5 {c1 c2 c3 c4 c5 : Char} {tail : List Char}
    (h1 : c1.isWhitespace = false) (h2 : c2.isWhitespace = false)
    (h3 : c3.isWhitespace = false) (h4 : c4.isWhitespace = false)
    (h5 : c5.isWhitespace = true) :
    splitWsRuns (c1 :: c2 :: c3 :: c4 :: c5 :: tail) =
      [c1, c2, c3, c4] :: splitWsAux tail [] := by
  unfold splitWsRuns
  rw [splitWsAux, if_neg (by simp [h1]), splitWsAux, if_neg (by simp [h2]),
    splitWsAux, if_neg (by simp [h3]), splitWsAux, if_neg (by simp [h4]),
    splitWsAux, if_pos h5, if_neg (by simp)]
  rfl

/-- An input whose trim passes the `/^drop\s+/i` test splits into at least
two whitespace-separated tokens (the trim guarantees a non-whitespace
character after the whitespace that follows "drop"). -/
theorem dropForm_two_tokens {l : List Char} (hd : isDropForm (trimChars l) = true) :
    2 ≤ (splitWsRuns (trimChars l)).length := by
  rcases ht : trimChars l with _ | ⟨c1, _ | ⟨c2, _ | ⟨c3, _ | ⟨c4, _ | ⟨c5, tail⟩⟩⟩⟩⟩ <;>
    rw [ht] at hd
  · exact Bool.noConfusion hd
  · exact Bool.noConfusion hd
  · exact Bool.noConfusion hd
  · exact Bool.noConfusion hd
  · exact Bool.noConfusion hd
  rw [show isDropForm (c1 :: c2 :: c3 :: c4 :: c5 :: tail) =
      ((c1 = 'd' || c1 = 'D') && (c2 = 'r' || c2 = 'R') && (c3 = 'o' || c3 = 'O') &&
        (c4 = 'p' || c4 = 'P') && c5.isWhitespace) from rfl] at hd
  simp only [Bool.and_eq_true, Bool.or_eq_true, decide_eq_true_eq] at hd
  obtain ⟨⟨⟨⟨hc1, hc2⟩, hc3⟩, hc4⟩, hc5⟩ := hd
  have h1 : c1.isWhitespace = false := by rcases hc1 with rfl | rfl <;> decide
  have h2 : c2.isWhitespace = false := by rcases hc2 with rfl | rfl <;> decide
  have h3 : c3.isWhitespace = false := by rcases hc3 with rfl | rfl <;> decide
  have h4 : c4.isWhitespace = false := by rcases hc4 with rfl | rfl <;> decide
  rw [splitWsRuns_cons5 h1 h2 h3 h4 hc5]
  have htail : splitWsAux tail [] ≠ [] := by
    apply splitWsAux_ne_nil
    right
    have hne : tail ≠ [] := by
      rintro rfl
      have := @trimChars_getLast l c5 (by rw [ht]; rfl)
      rw [hc5] at this
      cases this
    have hlast : tail.getLast? = some (tail.getLast hne) := List.getLast?_eq_getLast tail hne
    have hmem : tail.getLast hne ∈ tail := List.getLast_mem hne
    have hnws : (tail.getLast hne).isWhitespace = false := by
      apply @trimChars_getLast l _
      rw [ht]
      rw [List.getLast?_cons_cons, List.getLast?_cons_cons, List.getLast?_cons_cons,
        List.getLast?_cons_cons]
      rw [show (c5 :: tail).getLast? = tail.getLast? from ?_, hlast]
      cases tail with
      | nil => exact absurd rfl hne
      | cons x xs => rw [List.getLast?_cons_cons]
    exact ⟨tail.getLast hne, hmem, hnws⟩
  cases hsp : splitWsAux tail [] with
  | nil => exact absurd hsp htail
  | cons x xs => simp

theorem scaleTables_entries {r : Int} (h0 : 0 ≤ r) (h1 : r < 12) {sc : List String}
    (h : naturalMinorScales r = some sc ∨ harmonicMinorScales r = some sc) :
    sc.length = 7 ∧ (sc.map parseNoteToSemitone).Nodup ∧
      ¬ none ∈ sc.map parseNoteToSemitone := by
  interval_cases r <;> rcases h with h | h <;> (injection h with h; subst h; decide)

theorem scaleTables_some {r : Int} (h0 : 0 ≤ r) (h1 : r < 12) :
    (naturalMinorScales r).isSome = true ∧ (harmonicMinorScales r).isSome = true := by
  interval_cases r <;> decide

theorem parseNoteToSemitoneU_bounds {o : Option String} {x : Int}
    (h : parseNoteToSemitoneU o = some x) : 0 ≤ x ∧ x < 12 := by
  cases o with
  | none => cases h
  | some s => exact parseNoteToSemitone_bounds h

/-- With a valid root and a supported scale type, `generateScaleDiagram`
reduces to the string loop over the looked-up table entry. -/
theorem generateScaleDiagram_valid_eq {n : Nat} {t : List String}
    {root ty : String} {r : Int}
    (hroot : parseNoteToSemitone root = some r)
    (hty : ty = "natural" ∨ ty = "harmonic") :
    ∃ sc, (if ty = "natural" then naturalMinorScales r else harmonicMinorScales r) =
        some sc ∧
      generateScaleDiagram n t root ty =
        match buildStrings t (sc.map parseNoteToSemitone) 0 n with
        | .error e => .error e
        | .ok fb => .ok sc fb r (sc.map parseNoteToSemitone) := by
  obtain ⟨hb0, hb1⟩ := parseNoteToSemitone_bounds hroot
  obtain ⟨hnat, hharm⟩ := scaleTables_some hb0 hb1
  rcases hty with rfl | rfl
  · obtain ⟨sc, hsc⟩ := Option.isSome_iff_exists.mp hnat
    refine ⟨sc, by rw [if_pos rfl]; exact hsc, ?_⟩
    unfold generateScaleDiagram
    rw [hroot]
    dsimp only
    rw [if_pos rfl]
    unfold generateWithScale
    rw [hsc]
  · obtain ⟨sc, hsc⟩ := Option.isSome_iff_exists.mp hharm
    refine ⟨sc, by rw [if_neg (by decide)]; exact hsc, ?_⟩
    unfold generateScaleDiagram
    rw [hroot]
    dsimp only
    rw [if_neg (by decide), if_pos rfl]
    unfold generateWithScale
    rw [hsc]

/-! ### Claim theorems -/

/-- C1: `generateScaleDiagram 6 ["E","A","D","G","B","E"] "C" "harmonic"`
succeeds with scale `["C","D","Eb","F","G","Ab","B"]` and root pitch class 0;
on the lowest string (index 0) the fret-3 cell (row index 2) is `("G", true)`
whose pitch class is 7 ≠ the root, and the fret-8 cell (row index 7) is
`("C", true)` whose pitch class is 0 = the root. -/
theorem claim_C1 :
    (generateScaleDiagram 6 ["E", "A", "D", "G", "B", "E"] "C" "harmonic").getScale =
      some ["C", "D", "Eb", "F", "G", "Ab", "B"] ∧
    (generateScaleDiagram 6 ["E", "A", "D", "G", "B", "E"] "C" "harmonic").getRoot =
      some 0 ∧
    (((generateScaleDiagram 6 ["E", "A", "D", "G", "B", "E"] "C" "harmonic").getFretboard.getD
        []).getD 0 []).getD 2 ("", false) = ("G", true) ∧
    parseNoteToSemitone "G" = some 7 ∧ (7 : Int) ≠ 0 ∧
    (((generateScaleDiagram 6 ["E", "A", "D", "G", "B", "E"] "C" "harmonic").getFretboard.getD
        []).getD 0 []).getD 7 ("", false) = ("C", true) ∧
    parseNoteToSemitone "C" = some 0 := by
  decide

/-- C3: on any input whose trimmed, accidental-normalised, uppercased text
is a base letter (with table value `b`) followed only by `'#'`/`'B'`
characters, `parseNoteToSemitone` returns `(b + sharps − flats)` reduced by
floored modulo 12, a value in `[0,11]`; enharmonic equivalents such as
`"C#"` and `"Db"` map to the same pitch class. -/
theorem claim_C3 {note : String} {base : Char} {rest : List Char} {b : Int}
    (hn : normNote (trimChars note.data) = base :: rest)
    (hb : baseSemitoneMap base = some b)
    (hrest : ∀ c ∈ rest, c = '#' ∨ c = 'B') :
    parseNoteToSemitone note =
      some ((b + (rest.count '#' : Int) - (rest.count 'B' : Int)) % 12) ∧
    0 ≤ (b + (rest.count '#' : Int) - (rest.count 'B' : Int)) % 12 ∧
    (b + (rest.count '#' : Int) - (rest.count 'B' : Int)) % 12 < 12 ∧
    parseNoteToSemitone "C#" = parseNoteToSemitone "Db" := by
  have hne : note ≠ "" := by
    rintro rfl
    rw [show normNote (trimChars ("" : String).data) = [] from rfl] at hn
    cases hn
  have hlen : ¬ (trimChars note.data).length = 0 := by
    intro h0
    rw [List.length_eq_zero] at h0
    rw [h0, show normNote [] = [] from rfl] at hn
    cases hn
  refine ⟨?_, by omega, by omega, by decide⟩
  unfold parseNoteToSemitone
  rw [if_neg hne]
  dsimp only
  rw [if_neg hlen]
  simp only [hn, hb, applyAccidentals_count hrest b, jsMod12_eq_emod]

/-- C4: `parseNoteToSemitone` returns the invalid marker exactly when the
input is empty/blank after trimming, or the first normalised character is
not a letter A–G, or a later normalised character is neither `'#'` nor
`'B'`; in particular `""`, `"H"` and `"C$"` are invalid. -/
theorem claim_C4 :
    (∀ note : String,
      parseNoteToSemitone note = none ↔
        trimChars note.data = [] ∨
        ∃ base rest, normNote (trimChars note.data) = base :: rest ∧
          (base ∉ (['A', 'B', 'C', 'D', 'E', 'F', 'G'] : List Char) ∨
            ∃ c ∈ rest, c ≠ '#' ∧ c ≠ 'B')) ∧
    parseNoteToSemitone "" = none ∧
    parseNoteToSemitone "H" = none ∧
    parseNoteToSemitone "C$" = none := by
  refine ⟨fun note => ?_, by decide, by decide, by decide⟩
  by_cases hne : note = ""
  · subst hne
    rw [show parseNoteToSemitone "" = none from rfl,
      show trimChars ("" : String).data = [] from rfl]
    simp
  · unfold parseNoteToSemitone
    rw [if_neg hne]
    dsimp only
    by_cases hlen : (trimChars note.data).length = 0
    · rw [if_pos hlen]
      rw [List.length_eq_zero] at hlen
      simp [hlen]
    · rw [if_neg hlen]
      cases hnn : normNote (trimChars note.data) with
      | nil =>
        rw [normNote_eq_nil_iff] at hnn
        rw [hnn] at hlen
        simp at hlen
      | cons base rest =>
        dsimp only
        cases hbase : baseSemitoneMap base with
        | none =>
          constructor
          · intro _
            right
            exact ⟨base, rest, rfl,
              Or.inl ((baseSemitoneMap_none_iff base).mp hbase)⟩
          · intro _
            rfl
        | some b =>
          dsimp only
          cases hacc : applyAccidentals b rest with
          | none =>
            constructor
            · intro _
              right
              exact ⟨base, rest, rfl,
                Or.inr ((applyAccidentals_none_iff rest b).mp hacc)⟩
            · intro _
              rfl
          | some sem =>
            dsimp only
            constructor
            · intro hfalse
              cases hfalse
            · intro hrhs
              rcases hrhs with htr | ⟨b', r', heq, hbad⟩
              · rw [htr] at hlen
                simp at hlen
              · obtain ⟨rfl, rfl⟩ : base = b' ∧ rest = r' := by
                  injection heq with h1 h2
                  exact ⟨h1, h2⟩
                rcases hbad with hbad | hbad
                · rw [(baseSemitoneMap_none_iff base).mpr hbad] at hbase
                  cases hbase
                · rw [(applyAccidentals_none_iff rest b).mpr hbad] at hacc
                  cases hacc

theorem claim_C3_witness :
    parseNoteToSemitone "Db" =
      some ((2 + ((['B'] : List Char).count '#' : Int) -
        ((['B'] : List Char).count 'B' : Int)) % 12) ∧
    0 ≤ (2 + ((['B'] : List Char).count '#' : Int) -
        ((['B'] : List Char).count 'B' : Int)) % 12 ∧
    (2 + ((['B'] : List Char).count '#' : Int) -
        ((['B'] : List Char).count 'B' : Int)) % 12 < 12 ∧
    parseNoteToSemitone "C#" = parseNoteToSemitone "Db" :=
  @claim_C3 "Db" 'D' ['B'] 2 (by decide) (by decide) (by decide)

/-- C5: for every root pitch class 0–11 and both scale tables, the scale
list has exactly 7 entries parsing to 7 pairwise distinct pitch classes;
moreover every successful `generateScaleDiagram` result carries such a
table entry as its scale. -/
theorem claim_C5 :
    (∀ r : Int, 0 ≤ r → r < 12 → ∀ sc : List String,
      naturalMinorScales r = some sc ∨ harmonicMinorScales r = some sc →
        sc.length = 7 ∧ (sc.map parseNoteToSemitone).Nodup ∧
          ¬ none ∈ sc.map parseNoteToSemitone) ∧
    (∀ (n : Nat) (t : List String) (root ty : String) (scale : List String)
      (fb : List (List (String × Bool))) (rs : Int) (ss : List (Option Int)),
      generateScaleDiagram n t root ty = .ok scale fb rs ss →
        0 ≤ rs ∧ rs < 12 ∧
        scale.length = 7 ∧ (scale.map parseNoteToSemitone).Nodup ∧
          ¬ none ∈ scale.map parseNoteToSemitone) := by
  constructor
  · exact fun r h0 h1 sc h => scaleTables_entries h0 h1 h
  · intro n t root ty scale fb rs ss h
    obtain ⟨hroot, htab, _, _⟩ := generateScaleDiagram_ok_inv h
    obtain ⟨h0, h1⟩ := parseNoteToSemitone_bounds hroot
    obtain ⟨hl, hnd, hnn⟩ := scaleTables_entries h0 h1 htab
    exact ⟨h0, h1, hl, hnd, hnn⟩

theorem claim_C5_witness :
    (["C", "D", "Eb", "F", "G", "Ab", "Bb"] : List String).length = 7 ∧
    ((["C", "D", "Eb", "F", "G", "Ab", "Bb"] : List String).map
      parseNoteToSemitone).Nodup ∧
    ¬ none ∈ (["C", "D", "Eb", "F", "G", "Ab", "Bb"] : List String).map
      parseNoteToSemitone :=
  claim_C5.1 0 (by decide) (by decide) ["C", "D", "Eb", "F", "G", "Ab", "Bb"]
    (Or.inl (by decide))

/-- C6: for any input whose trimmed text passes the case-insensitive
`drop` + whitespace test, `parseTuning` returns the registered standard
tuning for the string count with index 0 replaced by the normalised second
whitespace-separated token, and the invalid marker when no standard tuning
is registered. -/
theorem claim_C6 {input : String} {n : Nat}
    (hd : isDropForm (trimChars input.data) = true) :
    (standardTunings n = none → parseTuning (some input) n = none) ∧
    ∀ st, standardTunings n = some st →
      parseTuning (some input) n =
        some (st.set 0 (String.mk (normTokenChars
          ((splitWsRuns (trimChars input.data)).getD 1 [])))) := by
  have hne : input ≠ "" := by
    rintro rfl
    rw [show trimChars ("" : String).data = [] from rfl] at hd
    cases hd
  have hlen := dropForm_two_tokens hd
  constructor
  · intro hst
    unfold parseTuning
    dsimp only
    rw [if_neg hne]
    rw [if_pos hd, if_neg (by omega), hst]
  · intro st hst
    unfold parseTuning
    dsimp only
    rw [if_neg hne]
    rw [if_pos hd, if_neg (by omega), hst]

theorem claim_C6_witness :
    parseTuning (some "Drop D") 6 = some ["D", "A", "D", "G", "B", "E"] := by
  have h := (@claim_C6 "Drop D" 6 (by decide)).2 ["E", "A", "D", "G", "B", "E"]
    (by decide)
  rw [h]
  decide

/-- C7: `parseTuning` returns the invalid marker for a missing or empty
input, a Drop-form input with an unregistered string count, a Drop-form
input with fewer than two tokens, and an explicit input whose token count
differs from the string count; `"E A D G B E"` with 6 strings succeeds
while `"E A D G"` with 6 strings is invalid. -/
theorem claim_C7 (n : Nat) (input : String) :
    parseTuning none n = none ∧
    parseTuning (some "") n = none ∧
    (isDropForm (trimChars input.data) = true → standardTunings n = none →
      parseTuning (some input) n = none) ∧
    (isDropForm (trimChars input.data) = true →
      (splitWsRuns (trimChars input.data)).length < 2 →
      parseTuning (some input) n = none) ∧
    (isDropForm (trimChars input.data) = false →
      ((splitWsRuns (trimChars input.data)).filter (fun t => t ≠ [])).length ≠ n →
      parseTuning (some input) n = none) ∧
    parseTuning (some "E A D G B E") 6 = some ["E", "A", "D", "G", "B", "E"] ∧
    parseTuning (some "E A D G") 6 = none := by
  refine ⟨rfl, rfl, ?_, ?_, ?_, by decide, by decide⟩
  · intro hd hst
    have hne : input ≠ "" := by
      rintro rfl
      rw [show trimChars ("" : String).data = [] from rfl] at hd
      cases hd
    have hlen := dropForm_two_tokens hd
    unfold parseTuning
    dsimp only
    rw [if_neg hne]
    rw [if_pos hd, if_neg (by omega), hst]
  · intro hd hshort
    have hne : input ≠ "" := by
      rintro rfl
      rw [show trimChars ("" : String).data = [] from rfl] at hd
      cases hd
    unfold parseTuning
    dsimp only
    rw [if_neg hne]
    rw [if_pos hd, if_pos hshort]
  · intro hd hmis
    by_cases hne : input = ""
    · subst hne
      rfl
    · unfold parseTuning
      dsimp only
      rw [if_neg hne]
      rw [if_neg (by simp [hd]), if_neg hmis]

theorem claim_C7_witness : parseTuning (some "E A D G") 6 = none :=
  (claim_C7 6 "E A D G").2.2.2.2.1 (by decide) (by decide)

/-- C9: Drop form performs no validity check on the drop note and ignores
all tokens after the second: `"Drop X"` installs the unparseable token
`"X"` at index 0 of the registered standard tuning for any string count
4–8, and `"Drop D foo bar"` behaves exactly like `"Drop D"`. -/
theorem claim_C9 (n : Nat) (h4 : 4 ≤ n) (h8 : n ≤ 8) :
    (standardTunings n).isSome = true ∧
    (∀ st, standardTunings n = some st →
      parseTuning (some "Drop X") n = some (st.set 0 "X")) ∧
    parseNoteToSemitone "X" = none ∧
    parseTuning (some "Drop D foo bar") 6 = parseTuning (some "Drop D") 6 ∧
    parseTuning (some "Drop D foo bar") 6 = some ["D", "A", "D", "G", "B", "E"] := by
  refine ⟨?_, ?_, by decide, by decide, by decide⟩
  · interval_cases n <;> decide
  · intro st hst
    interval_cases n <;> (injection hst with hst; subst hst; decide)

theorem claim_C9_witness :
    parseTuning (some "Drop X") 6 =
      some ((["E", "A", "D", "G", "B", "E"] : List String).set 0 "X") ∧
    parseNoteToSemitone "X" = none :=
  ⟨(claim_C9 6 (by decide) (by decide)).2.1 ["E", "A", "D", "G", "B", "E"] (by decide),
    (claim_C9 6 (by decide) (by decide)).2.2.1⟩

/-- C2: every successful `generateScaleDiagram` call returns a fretboard
with exactly `stringCount` rows (low string first) of exactly 12 cells for
frets 1–12 (no fret 0); the cell of string `s` at fret `i+1` displays
`noteNamesSharp[(pc(tuning[s]) + fret) mod 12]` — so all displayed names
come from the sharp-spelled list — and its flag equals membership of that
pitch class among the parsed scale-note pitch classes. -/
theorem claim_C2 {n : Nat} {t : List String} {root ty : String}
    {scale : List String} {fb : List (List (String × Bool))} {rs : Int}
    {ss : List (Option Int)}
    (h : generateScaleDiagram n t root ty = .ok scale fb rs ss) :
    fb.length = n ∧
    ∀ s, s < n → ∃ row pc, fb[s]? = some row ∧
      parseNoteToSemitoneU (t[s]?) = some pc ∧
      row.length = 12 ∧
      (∀ i : Nat, i < 12 → row[i]? =
        some (noteNamesSharp.getD ((pc + ((i : Int) + 1)) % 12).toNat "",
          (scale.map parseNoteToSemitone).contains
            (some ((pc + ((i : Int) + 1)) % 12)))) ∧
      ∀ cell ∈ row, cell.1 ∈ noteNamesSharp := by
  obtain ⟨hroot, htab, hss, hbs⟩ := generateScaleDiagram_ok_inv h
  obtain ⟨hlen, hshape⟩ := buildStrings_ok hbs
  refine ⟨hlen, fun s hs => ?_⟩
  obtain ⟨pc, hpc, hrow⟩ := hshape s hs
  rw [Nat.zero_add] at hpc
  obtain ⟨hpc0, hpc1⟩ := parseNoteToSemitoneU_bounds hpc
  have hconv : ∀ i : Nat, (pc + ((i : Int) + 1)).tmod 12 = (pc + ((i : Int) + 1)) % 12 :=
    fun i => Int.tmod_eq_emod (by positivity) (by norm_num)
  have hmem12 : ∀ k : Nat, k < 12 → noteNamesSharp.getD k "" ∈ noteNamesSharp := by
    decide
  refine ⟨buildRow pc (scale.map parseNoteToSemitone), pc, hrow, hpc,
    buildRow_length pc _, fun i hi => ?_, fun cell hcell => ?_⟩
  · rw [buildRow_getElem? hi, hconv i]
  · rw [buildRow, List.mem_map] at hcell
    obtain ⟨i, hi, rfl⟩ := hcell
    rw [List.mem_range] at hi
    dsimp only
    apply hmem12
    have := Int.tmod_lt_of_pos (pc + ((i : Int) + 1)) (by norm_num : (0:Int) < 12)
    omega

theorem claim_C2_witness :
    (([[("F", true), ("F#", false), ("G", true), ("G#", false), ("A", true),
      ("A#", false), ("B", true), ("C", true), ("C#", false), ("D", true),
      ("D#", false), ("E", true)]] : List (List (String × Bool)))).length = 1 :=
  (claim_C2 (by decide : generateScaleDiagram 1 ["E"] "A" "natural" =
    DiagramResult.ok ["A", "B", "C", "D", "E", "F", "G"]
      [[("F", true), ("F#", false), ("G", true), ("G#", false), ("A", true),
        ("A#", false), ("B", true), ("C", true), ("C#", false), ("D", true),
        ("D#", false), ("E", true)]]
      9 [some 9, some 11, some 0, some 2, some 4, some 5, some 7])).1

/-- With a valid root and scale type, the first tuning entry that fails note
parsing (all earlier ones succeeding) aborts generation with the single
invalid-open-note error naming that entry. -/
theorem generateScaleDiagram_invalid_open {n : Nat} {t : List String}
    {root ty : String} {r : Int} {s : Nat}
    (hroot : parseNoteToSemitone root = some r)
    (hty : ty = "natural" ∨ ty = "harmonic")
    (hs : s < n)
    (hfail : parseNoteToSemitoneU (t[s]?) = none)
    (hbelow : ∀ j, j < s → parseNoteToSemitoneU (t[j]?) ≠ none) :
    generateScaleDiagram n t root ty =
      .error ("Nota de afinação inválida: " ++ jsDisplay (t[s]?)) := by
  obtain ⟨sc, hsc, heq⟩ := generateScaleDiagram_valid_eq hroot hty
  have herr := @buildStrings_error_at t (sc.map parseNoteToSemitone) s n 0 hs
    (by rw [Nat.zero_add]; exact hfail)
    (fun i hi => by rw [Nat.zero_add]; exact hbelow i hi)
  rw [heq, herr, Nat.zero_add]

/-- C8 (amended): provided the root note parses and the scale type is one
of the two supported values, a call in which the tuning entry at index
`s < stringCount` fails note parsing while all earlier entries parse
returns the single invalid-open-note error naming that entry — no partial
fretboard is ever returned. -/
theorem claim_C8_amended {n : Nat} {t : List String} {root ty : String}
    {r : Int} {s : Nat}
    (hroot : parseNoteToSemitone root = some r)
    (hty : ty = "natural" ∨ ty = "harmonic")
    (hs : s < n)
    (hfail : parseNoteToSemitoneU (t[s]?) = none)
    (hbelow : ∀ j, j < s → parseNoteToSemitoneU (t[j]?) ≠ none) :
    generateScaleDiagram n t root ty =
      .error ("Nota de afinação inválida: " ++ jsDisplay (t[s]?)) :=
  generateScaleDiagram_invalid_open hroot hty hs hfail hbelow

theorem claim_C8_witness :
    generateScaleDiagram 2 ["E", "H"] "C" "natural" =
      DiagramResult.error ("Nota de afinação inválida: " ++
        jsDisplay ((["E", "H"] : List String)[1]?)) :=
  @claim_C8_amended 2 ["E", "H"] "C" "natural" 0 1 (by decide) (Or.inl rfl)
    (by decide) (by decide) (by decide)

/-- C8 counterexample: the call `generateScaleDiagram 1 ["H"] "H" "natural"`
satisfies the claim's hypotheses (entry 0 fails note parsing, no earlier
entries), yet the result is the invalid-key error, whose message does not
mention the offending note text `"H"` at all. -/
theorem claim_C8_cex :
    (0 < 1 ∧ parseNoteToSemitoneU ((["H"] : List String)[0]?) = none) ∧
    generateScaleDiagram 1 ["H"] "H" "natural" =
      .error "Tonalidade inválida." ∧
    ¬ 'H' ∈ "Tonalidade inválida.".data := by
  decide

/-- C10 (amended): provided the root note parses and the scale type is
valid, `generateScaleDiagram` does not enforce the tuning length: a tuning
shorter than `stringCount` yields the invalid-open-note error (with the
missing entry printing as `undefined` when all present entries parse),
while a longer tuning has its extra entries ignored and — when the used
entries parse — yields a success result with exactly `stringCount` rows. -/
theorem claim_C10_amended {n : Nat} {t : List String} {root ty : String}
    {r : Int}
    (hroot : parseNoteToSemitone root = some r)
    (hty : ty = "natural" ∨ ty = "harmonic") :
    (t.length < n →
      (∃ x, generateScaleDiagram n t root ty =
        .error ("Nota de afinação inválida: " ++ x)) ∧
      ((∀ j, j < t.length → parseNoteToSemitoneU (t[j]?) ≠ none) →
        generateScaleDiagram n t root ty =
          .error "Nota de afinação inválida: undefined")) ∧
    (n ≤ t.length →
      generateScaleDiagram n t root ty =
        generateScaleDiagram n (t.take n) root ty ∧
      ((∀ j, j < n → parseNoteToSemitoneU (t[j]?) ≠ none) →
        ∃ scale fb rs ss,
          generateScaleDiagram n t root ty = .ok scale fb rs ss ∧
            fb.length = n)) := by
  obtain ⟨sc, hsc, heq⟩ := generateScaleDiagram_valid_eq hroot hty
  constructor
  · intro hlt
    have hend : t[t.length]? = none := List.getElem?_eq_none (le_refl _)
    constructor
    · have hex : ∃ j, parseNoteToSemitoneU (t[j]?) = none :=
        ⟨t.length, by rw [hend]; rfl⟩
      have hle : Nat.find hex ≤ t.length :=
        Nat.find_min' hex (by rw [hend]; rfl)
      refine ⟨jsDisplay (t[Nat.find hex]?), ?_⟩
      exact generateScaleDiagram_invalid_open hroot hty (by omega)
        (Nat.find_spec hex) (fun j hj => Nat.find_min hex hj)
    · intro hall
      have hres := generateScaleDiagram_invalid_open hroot hty hlt
        (by rw [hend]; rfl) hall
      rw [hres, hend]
      rfl
  · intro hge
    obtain ⟨sc2, hsc2, heq2⟩ :=
      @generateScaleDiagram_valid_eq n (t.take n) root ty r hroot hty
    have hsc12 : sc2 = sc := by
      rw [hsc] at hsc2
      exact (Option.some_inj.mp hsc2).symm
    subst hsc12
    have hagree : ∀ j, j < n → t[0 + j]? = (t.take n)[0 + j]? := by
      intro j hj
      simp only [Nat.zero_add]
      rw [List.getElem?_take, if_pos hj]
    constructor
    · rw [heq, heq2, buildStrings_congr hagree]
    · intro hall
      obtain ⟨fb, hfb, hlen⟩ := buildStrings_all_ok
        (fun j hj => by rw [Nat.zero_add]; exact hall j hj)
      exact ⟨sc2, fb, r, sc2.map parseNoteToSemitone, by rw [heq, hfb], hlen⟩

theorem claim_C10_witness :
    generateScaleDiagram 2 ["E", "A", "D"] "C" "natural" =
      generateScaleDiagram 2 ((["E", "A", "D"] : List String).take 2)
        "C" "natural" :=
  ((@claim_C10_amended 2 ["E", "A", "D"] "C" "natural" 0 (by decide)
    (Or.inl rfl)).2 (by decide)).1

/-- C10 counterexample: with the empty tuning (shorter than the requested
3 strings, and all of its — zero — entries parseable) but an invalid root
note, the call returns the invalid-key error instead of the
invalid-open-note error value predicted by the claim. -/
theorem claim_C10_cex :
    (([] : List String)).length < 3 ∧
    generateScaleDiagram 3 [] "H" "natural" = .error "Tonalidade inválida." ∧
    "Tonalidade inválida." ≠ "Nota de afinação inválida: undefined" := by
  decide

end ScaleGen
